import Mathlib

/-!
Verification of `numberGuessing.cpp` (single-file C++17 console number-guessing
game with a CSV leaderboard).

The program is shallowly embedded:
* C++ `std::string` values become `List Char` (`Str`); the leaderboard file is
  an `Option (List Str)` — `none` models a missing file, each element one line.
* `int` becomes `ℤ`; `double` becomes `ℚ` in the I/O layer (values printed and
  parsed in fixed-point decimal) and `ℝ` in the scoring function, where the
  exact `log2` matters.
* Console interaction becomes explicit lists of input lines; the retry loops of
  `prompt_int` / `prompt_yesno` consume lines until one is accepted, returning
  `none` on end of input (the C++ calls `exit(0)` there).
* The uncaught exceptions thrown by `stoi` / `stod` inside `read_leaderboard`
  are modelled by `Except Unit`: `.error ()` is an aborted read.
-/

deriving instance DecidableEq for Except

namespace NumberGuessing

/-- A C++ `std::string`, modelled by its character list. -/
abbrev Str := List Char

/-- The character class accepted by the whitespace skip of `stoi` / `stod`
(C `isspace` in the default locale). -/
def isSpaceChar (c : Char) : Bool :=
  c = ' ' || c = '\t' || c = '\n' || c = '\x0b' || c = '\x0c' || c = '\r'

/-- Decimal digit test used by `stoi` / `stoll` / `stod` (C `isdigit`). -/
def isDigitChar (c : Char) : Bool :=
  '0' ≤ c && c ≤ '9'

/-- Numeric value of a decimal digit character. -/
def digitVal (c : Char) : ℕ := c.toNat - 48

/-- The decimal digit character for `n < 10`. -/
def digitChar (n : ℕ) : Char := Char.ofNat (48 + n)

/-- Value of a list of decimal digit characters, most significant first. -/
def digitsToNat (ds : Str) : ℕ :=
  ds.foldl (fun a c => 10 * a + digitVal c) 0

/-- Decimal digit characters of `n`, most significant first (the digit string
produced by `operator<<`, `std::to_string` and `printf` for a non-negative
integer). -/
def natDigits (n : ℕ) : Str :=
  if h : n < 10 then [digitChar n]
  else natDigits (n / 10) ++ [digitChar (n % 10)]
decreasing_by exact Nat.div_lt_self (by omega) (by omega)

/-- The character sequence `operator<<` / `std::to_string` produces for an
`int` value. -/
def intToChars (k : ℤ) : Str :=
  if k < 0 then '-' :: natDigits k.natAbs else natDigits k.natAbs

/-- Exactly two decimal digit characters for `r < 100` (the fractional part
written by `std::fixed << std::setprecision(2)`). -/
def twoDigits (r : ℕ) : Str := [digitChar (r / 10), digitChar (r % 10)]

/-- The character sequence `std::fixed << std::setprecision(2)` produces for a
`double` modelled as a rational: the value rounded to two decimal places
(rounding to nearest; the tie-breaking of the binary-to-decimal conversion is
modelled as round-half-up, ties being immaterial to the claims). -/
def formatFixed2 (q : ℚ) : Str :=
  let n : ℤ := round (q * 100)
  let m : ℕ := n.natAbs
  let body := natDigits (m / 100) ++ '.' :: twoDigits (m % 100)
  if n < 0 then '-' :: body else body

/-- `q` rounded to two decimal places: the value that survives a
`formatFixed2` / `stod` round trip. -/
def round2 (q : ℚ) : ℚ := (round (q * 100) : ℚ) / 100

/-- Longest prefix of decimal digits, interpreted as a natural number;
`none` when there is no leading digit. -/
def parseDigits (l : Str) : Option ℕ :=
  let ds := l.takeWhile isDigitChar
  if ds = [] then none else some (digitsToNat ds)

/-- `std::stoi` (equivalently `strtol` base 10): skip whitespace, optional
sign, at least one digit, ignore the rest of the string; `none` models the
`std::invalid_argument` exception thrown when no digits are found.
`std::stoi`'s other failure, `std::out_of_range` on `int` overflow, aborts
the read in exactly the same uncaught way but is NOT distinguished here (the
integers are unbounded): the model under-approximates the set of aborting
lines. For that reason no theorem below asserts unconditionally that
`read_leaderboard` completes on a given file class; completion statements are
conditional on the read completing, or confined to lines that never reach a
numeric conversion. -/
def stoi_fn (s : Str) : Option ℤ :=
  match s.dropWhile isSpaceChar with
  | [] => none
  | c :: cs =>
    if c = '-' then (parseDigits cs).map (fun (n : ℕ) => -(n : ℤ))
    else if c = '+' then (parseDigits cs).map (fun (n : ℕ) => (n : ℤ))
    else (parseDigits (c :: cs)).map (fun (n : ℕ) => (n : ℤ))

/-- Fixed-point part of `std::stod`: digits, optionally a decimal point and
more digits; at least one digit overall. Exponent, hexadecimal and
infinity/NaN forms, and `std::out_of_range` on `double` overflow/underflow,
are not modelled (this program's writer emits none of them); on a field using
such forms the model's parsed value or completed/aborted classification can
differ from the program's. As with `stoi_fn`, no completion of the read is
therefore claimed unconditionally over arbitrary files. -/
def parseDecimal (l : Str) : Option ℚ :=
  let ds := l.takeWhile isDigitChar
  match l.dropWhile isDigitChar with
  | '.' :: r3 =>
    let fs := r3.takeWhile isDigitChar
    if ds = [] ∧ fs = [] then none
    else some ((digitsToNat ds : ℚ) + (digitsToNat fs : ℚ) / 10 ^ fs.length)
  | _ => if ds = [] then none else some ((digitsToNat ds : ℚ))

/-- `std::stod`: skip whitespace, optional sign, fixed-point number; `none`
models the `std::invalid_argument` exception. -/
def stod_fn (s : Str) : Option ℚ :=
  match s.dropWhile isSpaceChar with
  | [] => none
  | c :: cs =>
    if c = '-' then (parseDecimal cs).map (fun q => -q)
    else if c = '+' then (parseDecimal cs).map (fun q => q)
    else (parseDecimal (c :: cs)).map (fun q => q)

/-- What a decimal digit character emitted by the writer satisfies: it is a
digit and is none of the separator characters the parser is sensitive to. -/
def DigitOk (c : Char) : Prop :=
  isDigitChar c = true ∧ isSpaceChar c = false
  ∧ c ≠ ',' ∧ c ≠ '"' ∧ c ≠ '.' ∧ c ≠ '-' ∧ c ≠ '+'

/-- `struct GameConfig` (field order and defaults as in the source;
`maxAttempts = 0` means unlimited). -/
structure GameConfig where
  difficultyName : Str := "Custom".data
  minValue : ℤ := 1
  maxValue : ℤ := 100
  maxAttempts : ℤ := 0
  deriving DecidableEq, Repr

/-- `struct Result`. `double` fields are modelled as `ℚ` here (the leaderboard
writes and reads them in fixed-point decimal). -/
structure Result where
  playerName : Str
  difficulty : Str
  attempts : ℤ
  elapsedSeconds : ℚ
  secretNumber : ℤ
  score : ℚ
  timestamp : Str
  deriving DecidableEq, Repr

/-- A quoted CSV string field, as written by `append_to_leaderboard`:
a double quote, the raw characters, a double quote (no escaping). -/
def quoteField (s : Str) : Str := '"' :: s ++ ['"']

/-- The line `append_to_leaderboard` writes for a record:
`"<timestamp>","<player>","<difficulty>",<attempts>,<seconds:2dp>,<secret>,<score:2dp>`. -/
def serialize (r : Result) : Str :=
  quoteField r.timestamp ++ ',' ::
    (quoteField r.playerName ++ ',' ::
      (quoteField r.difficulty ++ ',' ::
        (intToChars r.attempts ++ ',' ::
          (formatFixed2 r.elapsedSeconds ++ ',' ::
            (intToChars r.secretNumber ++ ',' :: formatFixed2 r.score)))))

/-- `append_to_leaderboard`: append one serialized line to the file, creating
it when missing (`std::ofstream` with `ios::app`). The non-fatal
cannot-open-for-writing path (record dropped, warning printed) is not taken in
this model. -/
def append_to_leaderboard (r : Result) (file : Option (List Str)) :
    Option (List Str) :=
  some (file.getD [] ++ [serialize r])

/-- Successive `std::getline(ss, item, ',')` calls on the characters of a
line: comma-separated segments, except that a trailing comma does NOT yield a
final empty segment (the last `getline` sees only end-of-stream and fails). -/
def cppFieldsAux (cur : Str) : Str → List Str
  | [] => [cur.reverse]
  | c :: rest =>
    if c = ',' then
      cur.reverse :: (if rest.isEmpty then [] else cppFieldsAux [] rest)
    else cppFieldsAux (c :: cur) rest

/-- All fields `getline(ss, item, ',')` yields on a line (none on an empty
line, where the first `getline` already fails). -/
def cppFields (s : Str) : List Str :=
  if s.isEmpty then [] else cppFieldsAux [] s

/-- The quote-stripping step of `read_leaderboard`:
`if (item.size() >= 2 && item.front() == '"') item = item.substr(1, item.size()-2);`. -/
def stripQuotes (item : Str) : Str :=
  if 2 ≤ item.length ∧ item.head? = some '"' then (item.drop 1).dropLast
  else item

/-- Outcome of `read_leaderboard`'s body on one line: `skip` models `continue`
(a `getline` on the line ran out of fields), `abort` an uncaught `stoi`/`stod`
exception, `record` a successfully parsed `Result`. -/
inductive LineOut where
  | skip
  | abort
  | record (r : Result)
  deriving DecidableEq, Repr

/-- The per-line body of `read_leaderboard`, with the source's evaluation
order: each field is taken with `getline` (missing → `continue`), the first
three are quote-stripped, and each numeric field is fed to `stoi`/`stod` as
soon as it is read (failure → uncaught exception). Fields past the seventh
are ignored. -/
def parse_line (l : Str) : LineOut :=
  match cppFields l with
  | ts :: pl :: df :: a :: rest4 =>
    match stoi_fn a with
    | none => .abort
    | some av =>
      match rest4 with
      | se :: rest5 =>
        match stod_fn se with
        | none => .abort
        | some sev =>
          match rest5 with
          | sc :: rest6 =>
            match stoi_fn sc with
            | none => .abort
            | some scv =>
              match rest6 with
              | scr :: _ =>
                match stod_fn scr with
                | none => .abort
                | some scrv =>
                  .record { playerName := stripQuotes pl
                            difficulty := stripQuotes df
                            attempts := av
                            elapsedSeconds := sev
                            secretNumber := scv
                            score := scrv
                            timestamp := stripQuotes ts }
              | [] => .skip
          | [] => .skip
      | [] => .skip
  | _ => .skip

/-- The `while (getline(ifs, line))` loop of `read_leaderboard`: `count`
records have already been pushed to `out`; after pushing a record the loop
stops as soon as `out.size() >= limit`. `.error ()` is an uncaught exception
escaping the loop. -/
def read_lines (limit : ℤ) (count : ℤ) : List Str → Except Unit (List Result)
  | [] => .ok []
  | l :: ls =>
    if l.isEmpty then read_lines limit count ls
    else
      match parse_line l with
      | .skip => read_lines limit count ls
      | .abort => .error ()
      | .record r =>
        if limit ≤ count + 1 then .ok [r]
        else (read_lines limit (count + 1) ls).map (fun rs => r :: rs)

/-- `read_leaderboard(limit)`: a missing file yields the empty vector; else
the lines are scanned from the beginning of the file. -/
def read_leaderboard (limit : ℤ) (file : Option (List Str)) :
    Except Unit (List Result) :=
  match file with
  | none => .ok []
  | some ls => read_lines limit 0 ls

/-- The records of every line of a file, with no limit: `.error ()` when some
line would abort the read, otherwise all well-formed records in file order
(empty and field-short lines skipped). Used to state what `read_leaderboard`
returns on files it survives. -/
def parse_all : List Str → Except Unit (List Result)
  | [] => .ok []
  | l :: ls =>
    if l.isEmpty then parse_all ls
    else
      match parse_line l with
      | .skip => parse_all ls
      | .abort => .error ()
      | .record r => (parse_all ls).map (fun rs => r :: rs)

/-! ### Scoring

`compute_score` works on `double`s; it is modelled over `ℝ` (`log2` is
`Real.logb 2`), the standard idealization for proving the algebraic
properties the spec states about it. -/

noncomputable section

/-- `compute_score(int attempts, double secondsElapsed, const GameConfig&)`,
line for line from the source. -/
def compute_score (attempts : ℤ) (secondsElapsed : ℝ) (cfg : GameConfig) : ℝ :=
  let rangeSize : ℝ := (cfg.maxValue : ℝ) - (cfg.minValue : ℝ) + 1
  let base : ℝ := 1000 / Real.logb 2 (rangeSize + 1)
  let attemptPenalty : ℝ := 20 * ((attempts : ℝ) - 1)
  let timePenalty : ℝ := secondsElapsed / 2
  let score : ℝ := base - attemptPenalty - timePenalty
  let score' : ℝ :=
    if 0 < cfg.maxAttempts then
      score * (1 + max 0 (0.5 - (attempts : ℝ) / (cfg.maxAttempts : ℝ)))
    else score
  if score' < 0 then 0 else score'

/-- Modelled from the spec: the closed-form scoring formula of § 4.2 /
claim C4, written from the spec's words (`base = 1000/log2(maxValue -
minValue + 2)`, penalties, bonus factor when `maxAttempts > 0`, clamp at 0).
To be compared with `compute_score`. -/
def spec_score (attempts : ℤ) (elapsedSeconds : ℝ) (cfg : GameConfig) : ℝ :=
  let base : ℝ := 1000 / Real.logb 2 ((cfg.maxValue : ℝ) - (cfg.minValue : ℝ) + 2)
  let score : ℝ := base - 20 * ((attempts : ℝ) - 1) - elapsedSeconds / 2
  let score' : ℝ :=
    if 0 < cfg.maxAttempts then
      score * (1 + max 0 (0.5 - (attempts : ℝ) / (cfg.maxAttempts : ℝ)))
    else score
  max 0 score'

end

/-! ### The guess loop of `play_game`

The loop is a state machine stepped by the integers the player enters at the
guess prompt. The secret is a parameter (in the source it is drawn by
`random_int(cfg.minValue, cfg.maxValue)`, uniformly over the inclusive
range). The console messages revealing the secret ("The number was …",
printed on give-up and on exhausting the attempts) are recorded in the
`revealed` field. -/

/-- The control state of the guess loop. -/
inductive Status where
  | Playing
  | Correct
  | GaveUp
  | AttemptsExhausted
  deriving DecidableEq, Repr

/-- The mutable state of `play_game`'s loop: `attempts`, the displayed hint
bounds, whether/how the loop ended, and the secret revealed on the way out
(if any). -/
structure GameState where
  attempts : ℤ
  lowHint : ℤ
  highHint : ℤ
  status : Status
  revealed : Option ℤ
  deriving DecidableEq, Repr

/-- Loop state at the first guess prompt. -/
def init_state (cfg : GameConfig) : GameState :=
  { attempts := 0, lowHint := cfg.minValue, highHint := cfg.maxValue
    status := .Playing, revealed := none }

/-- One iteration of the guess loop on input `g` (a no-op once the loop has
ended): the give-up check, the attempt increment, the correct/too-high/
too-low comparison with hint narrowing, then the max-attempts check. -/
def guess_step (cfg : GameConfig) (secret : ℤ) (st : GameState) (g : ℤ) :
    GameState :=
  match st.status with
  | .Playing =>
    if g = 0 then { st with status := .GaveUp, revealed := some secret }
    else
      let att := st.attempts + 1
      if g = secret then { st with attempts := att, status := .Correct }
      else
        let st' :=
          if secret < g then
            { st with attempts := att
                      highHint := if g - 1 < st.highHint then g - 1 else st.highHint }
          else
            { st with attempts := att
                      lowHint := if st.lowHint < g + 1 then g + 1 else st.lowHint }
        if 0 < cfg.maxAttempts ∧ cfg.maxAttempts ≤ att then
          { st' with status := .AttemptsExhausted, revealed := some secret }
        else st'
  | _ => st

/-- The guess loop run on a list of entered guesses (a prefix of the
interaction: inputs after the loop ends are never consumed, which the
post-terminal no-op of `guess_step` reflects). -/
def guess_loop (cfg : GameConfig) (secret : ℤ) (gs : List ℤ) : GameState :=
  gs.foldl (guess_step cfg secret) (init_state cfg)

/-- The attempt-limit invariant of the loop: `AttemptsExhausted` is never
entered with `maxAttempts = 0`; with a positive limit, a still-playing state
has strictly fewer attempts than the limit, and an exhausted state has used
exactly the limit and has revealed the secret. -/
def AttemptsInv (cfg : GameConfig) (secret : ℤ) (st : GameState) : Prop :=
  (cfg.maxAttempts = 0 → st.status ≠ .AttemptsExhausted)
  ∧ (0 < cfg.maxAttempts →
      (st.status = .Playing → st.attempts < cfg.maxAttempts)
      ∧ (st.status = .AttemptsExhausted →
          st.attempts = cfg.maxAttempts ∧ st.revealed = some secret))

/-! ### Input utilities and difficulty selection

Console input is a list of lines; each prompt consumes lines until one is
accepted. `none` models end-of-input, where the source calls `exit(0)`. -/

/-- The whitespace set `prompt_int` trims from both ends of a line
(`" \t\r\n"`). -/
def isTrimChar (c : Char) : Bool :=
  c = ' ' || c = '\t' || c = '\r' || c = '\n'

/-- One `prompt_int` iteration's parse of a line: trim; empty → reject;
`stoll` must consume the whole trimmed text (`idx != trimmed.size()` →
reject). -/
def parse_int_line (line : Str) : Option ℤ :=
  let trimmed := (line.dropWhile isTrimChar).reverse.dropWhile isTrimChar |>.reverse
  match trimmed with
  | [] => none
  | c :: cs =>
    if c = '-' then
      match cs.dropWhile isDigitChar, parseDigits cs with
      | [], some n => some (-(n : ℤ))
      | _, _ => none
    else if c = '+' then
      match cs.dropWhile isDigitChar, parseDigits cs with
      | [], some n => some ((n : ℤ))
      | _, _ => none
    else
      match (c :: cs).dropWhile isDigitChar, parseDigits (c :: cs) with
      | [], some n => some ((n : ℤ))
      | _, _ => none

/-- `prompt_int(prompt, minAllowed, maxAllowed)`: repeat until a line parses
fully as an integer within `[minAllowed, maxAllowed]`; return it and the
remaining input. `none` = end of input (`exit(0)`). -/
def prompt_int (minAllowed maxAllowed : ℤ) : List Str → Option (ℤ × List Str)
  | [] => none
  | line :: rest =>
    match parse_int_line line with
    | some v =>
      if minAllowed ≤ v ∧ v ≤ maxAllowed then some (v, rest)
      else prompt_int minAllowed maxAllowed rest
    | none => prompt_int minAllowed maxAllowed rest

/-- `prompt_yesno`: first non-whitespace character of a line, lowercased;
`y` → true, `n` → false, anything else (or a blank line) retries. -/
def prompt_yesno : List Str → Option (Bool × List Str)
  | [] => none
  | line :: rest =>
    match line.dropWhile isTrimChar with
    | [] => prompt_yesno rest
    | c :: _ =>
      if c.toLower = 'y' then some (true, rest)
      else if c.toLower = 'n' then some (false, rest)
      else prompt_yesno rest

/-- `choose_difficulty()`: menu choice 1–4 (the `switch`'s `default:` falls
into the Custom case), with the Custom prompts bounded exactly as in the
source: min in `[-1000000, 1000000]`, max in `[min+1, 1000000]`, optional
attempt limit in `[1, 1000000]`. -/
def choose_difficulty (lines : List Str) : Option (GameConfig × List Str) :=
  match prompt_int 1 4 lines with
  | none => none
  | some (choice, rest) =>
    if choice = 1 then
      some ({ difficultyName := "Easy".data, minValue := 1, maxValue := 20
              maxAttempts := 0 }, rest)
    else if choice = 2 then
      some ({ difficultyName := "Medium".data, minValue := 1, maxValue := 100
              maxAttempts := 10 }, rest)
    else if choice = 3 then
      some ({ difficultyName := "Hard".data, minValue := 1, maxValue := 1000
              maxAttempts := 12 }, rest)
    else
      match prompt_int (-1000000) 1000000 rest with
      | none => none
      | some (mn, rest2) =>
        match prompt_int (mn + 1) 1000000 rest2 with
        | none => none
        | some (mx, rest3) =>
          match prompt_yesno rest3 with
          | none => none
          | some (true, rest4) =>
            match prompt_int 1 1000000 rest4 with
            | none => none
            | some (ma, rest5) =>
              some ({ difficultyName := "Custom".data, minValue := mn
                      maxValue := mx, maxAttempts := ma }, rest5)
          | some (false, rest4) =>
            some ({ difficultyName := "Custom".data, minValue := mn
                    maxValue := mx, maxAttempts := 0 }, rest4)

/-! ### End of a session -/

/-- The tail of `play_game` (lines 286–300): read the player name (blank →
`"Anonymous"`), assemble the `Result`, and append it to the leaderboard file
unless the name is `"Anonymous"`. The numeric outcome of the loop
(`attempts`, `secret`, `elapsed`) and the computed score enter as values (the
score is produced by `compute_score(max(1, attempts), elapsed, cfg)`,
modelled over `ℝ` above; the leaderboard stores its printed decimal). -/
def finalize (cfg : GameConfig) (attempts secret : ℤ) (elapsed score : ℚ)
    (timestamp nameInput : Str) (file : Option (List Str)) :
    Result × Option (List Str) :=
  let name := if nameInput = [] then "Anonymous".data else nameInput
  let res : Result :=
    { playerName := name
      difficulty := cfg.difficultyName ++ " (".data ++ intToChars cfg.minValue
                      ++ "-".data ++ intToChars cfg.maxValue ++ ")".data
      attempts := attempts
      elapsedSeconds := elapsed
      secretNumber := secret
      score := score
      timestamp := timestamp }
  if name ≠ "Anonymous".data then (res, append_to_leaderboard res file)
  else (res, file)

/-- Concrete records used by the concrete leaderboard checks. -/
def sampleA : Result :=
  { playerName := "A".data, difficulty := "d".data, attempts := 1
    elapsedSeconds := 0, secretNumber := 5, score := 0
    timestamp := "t".data }

/-- Like `sampleA` with a different player name. -/
def sampleB : Result :=
  { playerName := "B".data, difficulty := "d".data, attempts := 1
    elapsedSeconds := 0, secretNumber := 5, score := 0
    timestamp := "t".data }

/-- A record with non-integral seconds and score. -/
def sampleG : Result :=
  { playerName := "p".data, difficulty := "d".data, attempts := 3
    elapsedSeconds := 157/100, secretNumber := 42, score := 9987/100
    timestamp := "t".data }

/-! ### Lemmas about the guess loop -/

lemma guess_step_low_mono (cfg : GameConfig) (secret : ℤ) (st : GameState)
    (g : ℤ) : st.lowHint ≤ (guess_step cfg secret st g).lowHint := by
  obtain ⟨att, lo, hi, stat, rev⟩ := st
  cases stat <;> simp only [guess_step] <;>
    first
      | (split_ifs <;> simp <;> omega)
      | simp

lemma guess_step_high_mono (cfg : GameConfig) (secret : ℤ) (st : GameState)
    (g : ℤ) : (guess_step cfg secret st g).highHint ≤ st.highHint := by
  obtain ⟨att, lo, hi, stat, rev⟩ := st
  cases stat <;> simp only [guess_step] <;>
    first
      | (split_ifs <;> simp <;> omega)
      | simp

lemma guess_step_inv (cfg : GameConfig) (secret : ℤ) (st : GameState) (g : ℤ)
    (h1 : st.lowHint ≤ secret) (h2 : secret ≤ st.highHint) :
    (guess_step cfg secret st g).lowHint ≤ secret
    ∧ secret ≤ (guess_step cfg secret st g).highHint := by
  obtain ⟨att, lo, hi, stat, rev⟩ := st
  cases stat <;> simp only [guess_step] <;>
    first
      | (split_ifs <;> simp_all <;> omega)
      | simp_all

lemma foldl_low_mono (cfg : GameConfig) (secret : ℤ) (gs : List ℤ)
    (st : GameState) :
    st.lowHint ≤ (gs.foldl (guess_step cfg secret) st).lowHint := by
  induction gs generalizing st with
  | nil => exact le_refl _
  | cons g gs ih =>
    exact le_trans (guess_step_low_mono cfg secret st g) (ih _)

lemma foldl_high_mono (cfg : GameConfig) (secret : ℤ) (gs : List ℤ)
    (st : GameState) :
    (gs.foldl (guess_step cfg secret) st).highHint ≤ st.highHint := by
  induction gs generalizing st with
  | nil => exact le_refl _
  | cons g gs ih =>
    exact le_trans (ih _) (guess_step_high_mono cfg secret st g)

lemma foldl_inv (cfg : GameConfig) (secret : ℤ) (gs : List ℤ) (st : GameState)
    (h1 : st.lowHint ≤ secret) (h2 : secret ≤ st.highHint) :
    (gs.foldl (guess_step cfg secret) st).lowHint ≤ secret
    ∧ secret ≤ (gs.foldl (guess_step cfg secret) st).highHint := by
  induction gs generalizing st with
  | nil => exact ⟨h1, h2⟩
  | cons g gs ih =>
    obtain ⟨i1, i2⟩ := guess_step_inv cfg secret st g h1 h2
    exact ih _ i1 i2

lemma guess_step_attempts_inv (cfg : GameConfig) (secret : ℤ) (st : GameState)
    (g : ℤ) (h : AttemptsInv cfg secret st) :
    AttemptsInv cfg secret (guess_step cfg secret st g) := by
  obtain ⟨att, lo, hi, stat, rev⟩ := st
  obtain ⟨hz, hp⟩ := h
  cases stat <;> simp_all only [AttemptsInv, guess_step] <;>
    first
      | (split_ifs <;> simp_all <;> omega)
      | simp_all

lemma foldl_attempts_inv (cfg : GameConfig) (secret : ℤ) (gs : List ℤ)
    (st : GameState) (h : AttemptsInv cfg secret st) :
    AttemptsInv cfg secret (gs.foldl (guess_step cfg secret) st) := by
  induction gs generalizing st with
  | nil => exact h
  | cons g gs ih => exact ih _ (guess_step_attempts_inv cfg secret st g h)

lemma guess_step_not_correct (cfg : GameConfig) (st : GameState) (g : ℤ)
    (h : st.status ≠ .Correct) :
    (guess_step cfg 0 st g).status ≠ .Correct := by
  obtain ⟨att, lo, hi, stat, rev⟩ := st
  cases stat <;> simp_all only [guess_step] <;>
    first
      | (split_ifs <;> simp_all)
      | simp_all

lemma foldl_not_correct (cfg : GameConfig) (gs : List ℤ) (st : GameState)
    (h : st.status ≠ .Correct) :
    (gs.foldl (guess_step cfg 0) st).status ≠ .Correct := by
  induction gs generalizing st with
  | nil => exact h
  | cons g gs ih => exact ih _ (guess_step_not_correct cfg st g h)

lemma guess_step_narrow_high (cfg : GameConfig) (secret : ℤ) (st : GameState)
    (g : ℤ) (hst : st.status = .Playing) (hg : g ≠ 0) (hgt : secret < g) :
    (guess_step cfg secret st g).highHint ≤ g - 1 := by
  obtain ⟨att, lo, hi, stat, rev⟩ := st
  simp only [GameState.status] at hst
  subst hst
  simp only [guess_step]
  split_ifs <;> simp_all <;> omega

lemma guess_step_narrow_low (cfg : GameConfig) (secret : ℤ) (st : GameState)
    (g : ℤ) (hst : st.status = .Playing) (hg : g ≠ 0) (hlt : g < secret) :
    g + 1 ≤ (guess_step cfg secret st g).lowHint := by
  obtain ⟨att, lo, hi, stat, rev⟩ := st
  simp only [GameState.status] at hst
  subst hst
  simp only [guess_step]
  split_ifs <;> simp_all <;> omega

lemma prompt_int_range (lines : List Str) (lo hi v : ℤ) (rest : List Str)
    (h : prompt_int lo hi lines = some (v, rest)) : lo ≤ v ∧ v ≤ hi := by
  induction lines generalizing rest with
  | nil => simp [prompt_int] at h
  | cons line ls ih =>
    simp only [prompt_int] at h
    cases hp : parse_int_line line with
    | none => rw [hp] at h; exact ih rest h
    | some v' =>
      rw [hp] at h
      simp only at h
      split_ifs at h with hin
      · obtain ⟨rfl, rfl⟩ : v' = v ∧ ls = rest := by
          simpa using h
        exact hin
      · exact ih rest h

/-! ### The claims about the guess loop and difficulty selection -/

/-- Claim C3: in every game session whose secret lies within the configured
`[minValue, maxValue]`, the hint range is an invariant of the guess loop:
`lowHint ≤ secret ≤ highHint` holds after every guess (so the range never
inverts); after a "too high" guess `g` the displayed upper bound — now and at
every later prompt — is `≤ g-1`, and after a "too low" guess `g` the displayed
lower bound is `≥ g+1`. -/
theorem hint_range_invariant (cfg : GameConfig) (secret : ℤ)
    (h1 : cfg.minValue ≤ secret) (h2 : secret ≤ cfg.maxValue) (gs : List ℤ) :
    ((guess_loop cfg secret gs).lowHint ≤ secret
      ∧ secret ≤ (guess_loop cfg secret gs).highHint)
    ∧ (∀ g : ℤ, (guess_loop cfg secret gs).status = .Playing → g ≠ 0 →
        secret < g →
        (guess_step cfg secret (guess_loop cfg secret gs) g).highHint ≤ g - 1)
    ∧ (∀ g : ℤ, (guess_loop cfg secret gs).status = .Playing → g ≠ 0 →
        g < secret →
        g + 1 ≤ (guess_step cfg secret (guess_loop cfg secret gs) g).lowHint)
    ∧ (∀ gs' : List ℤ,
        (guess_loop cfg secret (gs ++ gs')).highHint
            ≤ (guess_loop cfg secret gs).highHint
        ∧ (guess_loop cfg secret gs).lowHint
            ≤ (guess_loop cfg secret (gs ++ gs')).lowHint) := by
  refine ⟨?_, ?_, ?_, ?_⟩
  · exact foldl_inv cfg secret gs (init_state cfg) h1 h2
  · intro g hst hg hgt
    exact guess_step_narrow_high cfg secret _ g hst hg hgt
  · intro g hst hg hlt
    exact guess_step_narrow_low cfg secret _ g hst hg hlt
  · intro gs'
    constructor
    · simp only [guess_loop, List.foldl_append]
      exact foldl_high_mono cfg secret gs' _
    · simp only [guess_loop, List.foldl_append]
      exact foldl_low_mono cfg secret gs' _

/-- Witness for C3 at a concrete session: Easy config, secret 5, one guess. -/
theorem hint_range_invariant_witness :
    (((⟨"Easy".data, 1, 20, 0⟩ : GameConfig).minValue ≤ (5 : ℤ))
      ∧ ((5 : ℤ) ≤ (⟨"Easy".data, 1, 20, 0⟩ : GameConfig).maxValue))
    ∧ ((guess_loop ⟨"Easy".data, 1, 20, 0⟩ 5 [7]).lowHint ≤ 5
      ∧ (5 : ℤ) ≤ (guess_loop ⟨"Easy".data, 1, 20, 0⟩ 5 [7]).highHint) :=
  ⟨⟨by decide, by decide⟩,
    (hint_range_invariant ⟨"Easy".data, 1, 20, 0⟩ 5 (by decide) (by decide)
      [7]).1⟩

/-- Claim C5: with `maxAttempts > 0` the loop cannot still be playing once
the attempt count has reached `maxAttempts` — when it ends in
`AttemptsExhausted` it has used exactly `maxAttempts` attempts and has
revealed the secret — and with `maxAttempts == 0` the `AttemptsExhausted`
outcome never occurs. -/
theorem max_attempts_termination (cfg : GameConfig) (secret : ℤ)
    (gs : List ℤ) :
    (cfg.maxAttempts = 0 →
      (guess_loop cfg secret gs).status ≠ .AttemptsExhausted)
    ∧ (0 < cfg.maxAttempts →
        ((guess_loop cfg secret gs).status = .Playing →
          (guess_loop cfg secret gs).attempts < cfg.maxAttempts)
        ∧ ((guess_loop cfg secret gs).status = .AttemptsExhausted →
            (guess_loop cfg secret gs).attempts = cfg.maxAttempts
            ∧ (guess_loop cfg secret gs).revealed = some secret)) := by
  have hinit : AttemptsInv cfg secret (init_state cfg) := by
    refine ⟨fun _ => by simp [init_state], fun hpos => ⟨fun _ => ?_, fun hAE => ?_⟩⟩
    · simpa [init_state] using hpos
    · simp [init_state] at hAE
  exact foldl_attempts_inv cfg secret gs (init_state cfg) hinit

/-- Witness for C5: an unlimited session never exhausts; a 3-attempt session
that misses three times exhausts with exactly 3 attempts and the secret
revealed. -/
theorem max_attempts_termination_witness :
    ((guess_loop ⟨"Easy".data, 1, 20, 0⟩ 5 [1, 2]).status
        ≠ .AttemptsExhausted)
    ∧ ((guess_loop ⟨"Medium".data, 1, 100, 3⟩ 42 [50, 30, 40]).attempts = 3
      ∧ (guess_loop ⟨"Medium".data, 1, 100, 3⟩ 42 [50, 30, 40]).revealed
          = some 42) :=
  ⟨(max_attempts_termination ⟨"Easy".data, 1, 20, 0⟩ 5 [1, 2]).1 rfl,
    (max_attempts_termination ⟨"Medium".data, 1, 100, 3⟩ 42
      [50, 30, 40]).2 (by decide) |>.2 (by decide)⟩

/-- Claim C6: while the loop is playing, submitting the give-up guess 0
leaves the attempt counter unchanged, reveals the secret, and ends the loop
in the `GaveUp` state; every other submitted guess increments the attempt
counter by exactly one. -/
theorem give_up_and_attempt_counting (cfg : GameConfig) (secret : ℤ)
    (st : GameState) (h : st.status = .Playing) :
    (guess_step cfg secret st 0).attempts = st.attempts
    ∧ (guess_step cfg secret st 0).status = .GaveUp
    ∧ (guess_step cfg secret st 0).revealed = some secret
    ∧ ∀ g : ℤ, g ≠ 0 → (guess_step cfg secret st g).attempts = st.attempts + 1 := by
  obtain ⟨att, lo, hi, stat, rev⟩ := st
  simp only [GameState.status] at h
  subst h
  refine ⟨by simp [guess_step], by simp [guess_step], by simp [guess_step], ?_⟩
  intro g hg
  simp only [guess_step]
  split_ifs <;> simp_all

/-- Witness for C6 at a concrete playing state. -/
theorem give_up_and_attempt_counting_witness :
    ((⟨2, 1, 20, .Playing, none⟩ : GameState).status = .Playing)
    ∧ ((guess_step ⟨"Easy".data, 1, 20, 0⟩ 5
          ⟨2, 1, 20, .Playing, none⟩ 0).attempts = 2
      ∧ (guess_step ⟨"Easy".data, 1, 20, 0⟩ 5
          ⟨2, 1, 20, .Playing, none⟩ 0).status = .GaveUp
      ∧ (guess_step ⟨"Easy".data, 1, 20, 0⟩ 5
          ⟨2, 1, 20, .Playing, none⟩ 0).revealed = some 5
      ∧ ∀ g : ℤ, g ≠ 0 →
          (guess_step ⟨"Easy".data, 1, 20, 0⟩ 5
            ⟨2, 1, 20, .Playing, none⟩ g).attempts = 2 + 1) :=
  ⟨rfl, give_up_and_attempt_counting ⟨"Easy".data, 1, 20, 0⟩ 5
    ⟨2, 1, 20, .Playing, none⟩ rfl⟩

/-- Claim C10: when the configured range contains 0 and the drawn secret is
0, the `Correct` outcome is unreachable — entering 0 is interpreted as giving
up before the guess is compared with the secret — and the 0 guess ends a
playing session in `GaveUp` without incrementing the attempt counter. -/
theorem secret_zero_unguessable (cfg : GameConfig)
    (h1 : cfg.minValue ≤ 0) (h2 : 0 ≤ cfg.maxValue) (gs : List ℤ)
    (st : GameState) (hst : st.status = .Playing) :
    (guess_loop cfg 0 gs).status ≠ .Correct
    ∧ (guess_step cfg 0 st 0).status = .GaveUp
    ∧ (guess_step cfg 0 st 0).attempts = st.attempts
    ∧ (guess_step cfg 0 st 0).revealed = some 0 := by
  refine ⟨foldl_not_correct cfg gs (init_state cfg) (by simp [init_state]),
    ?_, ?_, ?_⟩ <;>
  · obtain ⟨att, lo, hi, stat, rev⟩ := st
    simp only [GameState.status] at hst
    subst hst
    simp [guess_step]

/-- Witness for C10: a symmetric custom range containing 0, secret 0. -/
theorem secret_zero_unguessable_witness :
    ((⟨"Custom".data, -5, 5, 0⟩ : GameConfig).minValue ≤ 0
      ∧ (0 : ℤ) ≤ (⟨"Custom".data, -5, 5, 0⟩ : GameConfig).maxValue
      ∧ (⟨0, -5, 5, .Playing, none⟩ : GameState).status = .Playing)
    ∧ ((guess_loop ⟨"Custom".data, -5, 5, 0⟩ 0 [3, -2]).status ≠ .Correct
      ∧ (guess_step ⟨"Custom".data, -5, 5, 0⟩ 0
          ⟨0, -5, 5, .Playing, none⟩ 0).status = .GaveUp
      ∧ (guess_step ⟨"Custom".data, -5, 5, 0⟩ 0
          ⟨0, -5, 5, .Playing, none⟩ 0).attempts = 0
      ∧ (guess_step ⟨"Custom".data, -5, 5, 0⟩ 0
          ⟨0, -5, 5, .Playing, none⟩ 0).revealed = some 0) :=
  ⟨⟨by decide, by decide, rfl⟩,
    secret_zero_unguessable ⟨"Custom".data, -5, 5, 0⟩ (by decide) (by decide)
      [3, -2] ⟨0, -5, 5, .Playing, none⟩ rfl⟩

/-- Claim C9: every `GameConfig` produced by difficulty selection satisfies
`minValue < maxValue`, for all four menu choices — the Custom path's
maximum-value prompt only accepts values `≥ minValue + 1`. -/
theorem difficulty_range_invariant (lines : List Str) (cfg : GameConfig)
    (rest : List Str) (h : choose_difficulty lines = some (cfg, rest)) :
    cfg.minValue < cfg.maxValue := by
  unfold choose_difficulty at h
  cases hc : prompt_int 1 4 lines with
  | none => rw [hc] at h; exact absurd h (by simp)
  | some p =>
    obtain ⟨choice, rest1⟩ := p
    rw [hc] at h
    simp only at h
    split_ifs at h with h1 h2 h3
    · obtain ⟨rfl, rfl⟩ : _ ∧ rest1 = rest := by simpa using h
      decide
    · obtain ⟨rfl, rfl⟩ : _ ∧ rest1 = rest := by simpa using h
      decide
    · obtain ⟨rfl, rfl⟩ : _ ∧ rest1 = rest := by simpa using h
      decide
    · cases hmn : prompt_int (-1000000) 1000000 rest1 with
      | none => rw [hmn] at h; exact absurd h (by simp)
      | some pmn =>
        obtain ⟨mn, rest2⟩ := pmn
        rw [hmn] at h
        simp only at h
        cases hmx : prompt_int (mn + 1) 1000000 rest2 with
        | none => rw [hmx] at h; exact absurd h (by simp)
        | some pmx =>
          obtain ⟨mx, rest3⟩ := pmx
          rw [hmx] at h
          simp only at h
          have hr := prompt_int_range rest2 (mn + 1) 1000000 mx rest3 hmx
          cases hyn : prompt_yesno rest3 with
          | none => rw [hyn] at h; exact absurd h (by simp)
          | some pyn =>
            obtain ⟨yn, rest4⟩ := pyn
            rw [hyn] at h
            cases yn with
            | true =>
              simp only at h
              cases hma : prompt_int 1 1000000 rest4 with
              | none => rw [hma] at h; exact absurd h (by simp)
              | some pma =>
                obtain ⟨ma, rest5⟩ := pma
                rw [hma] at h
                obtain ⟨rfl, rfl⟩ : _ ∧ rest5 = rest := by simpa using h
                simp only [GameConfig.minValue, GameConfig.maxValue]
                omega
            | false =>
              obtain ⟨rfl, rfl⟩ : _ ∧ rest4 = rest := by simpa using h
              simp only [GameConfig.minValue, GameConfig.maxValue]
              omega

/-- Witness for C9: menu choice 2 yields the Medium configuration. -/
theorem difficulty_range_invariant_witness :
    (choose_difficulty ["2".data]
        = some (⟨"Medium".data, 1, 100, 10⟩, []))
    ∧ ((⟨"Medium".data, 1, 100, 10⟩ : GameConfig).minValue
        < (⟨"Medium".data, 1, 100, 10⟩ : GameConfig).maxValue) :=
  ⟨by decide, difficulty_range_invariant ["2".data]
    ⟨"Medium".data, 1, 100, 10⟩ [] (by decide)⟩

/-! ### Lemmas and claims about the scoring function -/

lemma clamp_nonneg (x : ℝ) : 0 ≤ if x < 0 then 0 else x := by
  split_ifs with h
  · exact le_refl 0
  · exact not_lt.mp h

lemma clamp_mono {x y : ℝ} (h : x ≤ y) :
    (if x < 0 then 0 else x) ≤ if y < 0 then 0 else y := by
  split_ifs with hx hy1 hy2
  · exact le_refl 0
  · exact not_lt.mp hy1
  · exact absurd (lt_of_le_of_lt h hy2) (not_lt.mpr (not_lt.mp hx))
  · exact h

lemma clamp_mul_mono {p p' m m' : ℝ} (hp : p' ≤ p) (hm : m' ≤ m)
    (hm1 : 1 ≤ m') :
    (if p' * m' < 0 then 0 else p' * m') ≤ if p * m < 0 then 0 else p * m := by
  rcases le_or_lt p' 0 with hneg | hpos
  · have h0 : p' * m' ≤ 0 :=
      mul_nonpos_iff.mpr (Or.inr ⟨hneg, le_trans zero_le_one hm1⟩)
    have hL : (if p' * m' < 0 then 0 else p' * m') ≤ 0 := by
      split_ifs with h
      · exact le_refl 0
      · exact h0
    exact le_trans hL (clamp_nonneg _)
  · have hmul : p' * m' ≤ p * m :=
      mul_le_mul hp hm (le_trans zero_le_one hm1)
        (le_trans (le_of_lt hpos) hp)
    exact clamp_mono hmul

lemma ite_neg_zero_eq_max (x : ℝ) : (if x < 0 then 0 else x) = max 0 x := by
  split_ifs with h
  · exact (max_eq_left (le_of_lt h)).symm
  · exact (max_eq_right (not_lt.mp h)).symm

/-- Claim C2: for any fixed configuration, `compute_score` is monotonically
non-increasing in `attempts` and in `elapsedSeconds` (all else fixed), and
its result is always non-negative. -/
theorem compute_score_monotone (cfg : GameConfig) (a a' : ℤ) (s s' : ℝ)
    (ha : a ≤ a') (hs : s ≤ s') :
    compute_score a' s cfg ≤ compute_score a s cfg
    ∧ compute_score a s' cfg ≤ compute_score a s cfg
    ∧ 0 ≤ compute_score a s cfg := by
  have hcast : (a : ℝ) ≤ (a' : ℝ) := Int.cast_le.mpr ha
  refine ⟨?_, ?_, ?_⟩
  · by_cases hM : 0 < cfg.maxAttempts
    · have hMr : (0 : ℝ) < (cfg.maxAttempts : ℝ) := by exact_mod_cast hM
      simp only [compute_score, if_pos hM]
      refine clamp_mul_mono (by linarith) ?_ ?_
      · refine add_le_add_left (max_le_max (le_refl 0) ?_) 1
        have := (div_le_div_iff_of_pos_right hMr).mpr hcast
        linarith
      · have : (0:ℝ) ≤ max 0 (0.5 - (a' : ℝ) / (cfg.maxAttempts : ℝ)) :=
          le_max_left _ _
        linarith
    · simp only [compute_score, if_neg hM]
      exact clamp_mono (by linarith)
  · by_cases hM : 0 < cfg.maxAttempts
    · simp only [compute_score, if_pos hM]
      refine clamp_mul_mono (by linarith) (le_refl _) ?_
      have : (0:ℝ) ≤ max 0 (0.5 - (a : ℝ) / (cfg.maxAttempts : ℝ)) :=
        le_max_left _ _
      linarith
    · simp only [compute_score, if_neg hM]
      exact clamp_mono (by linarith)
  · simp only [compute_score]
    exact clamp_nonneg _

/-- Witness for C2 at a concrete configuration and inputs. -/
theorem compute_score_monotone_witness :
    ((1 : ℤ) ≤ 2 ∧ (0 : ℝ) ≤ 1)
    ∧ (compute_score 2 0 ⟨"Medium".data, 1, 100, 10⟩
        ≤ compute_score 1 0 ⟨"Medium".data, 1, 100, 10⟩
      ∧ compute_score 1 1 ⟨"Medium".data, 1, 100, 10⟩
        ≤ compute_score 1 0 ⟨"Medium".data, 1, 100, 10⟩
      ∧ 0 ≤ compute_score 1 0 ⟨"Medium".data, 1, 100, 10⟩) :=
  ⟨⟨by decide, zero_le_one⟩,
    compute_score_monotone ⟨"Medium".data, 1, 100, 10⟩ 1 2 0 1
      (by decide) zero_le_one⟩

/-- Claim C4: `compute_score` coincides with the spec's closed-form formula
(`base = 1000/log2(maxValue - minValue + 2)`, linear penalties, bonus factor
when `maxAttempts > 0`, clamp at 0); in particular at `minValue = 1`,
`maxValue = 100`, `maxAttempts = 0`, `attempts = 1`, `elapsedSeconds = 0` the
score is exactly `1000 / log2 101` (≈ 150.3). -/
theorem compute_score_closed_form :
    (∀ (a : ℤ) (s : ℝ) (cfg : GameConfig),
        compute_score a s cfg = spec_score a s cfg)
    ∧ compute_score 1 0 ⟨"Medium".data, 1, 100, 0⟩
        = 1000 / Real.logb 2 101 := by
  constructor
  · intro a s cfg
    simp only [compute_score, spec_score]
    have harg : (cfg.maxValue : ℝ) - (cfg.minValue : ℝ) + 1 + 1
        = (cfg.maxValue : ℝ) - (cfg.minValue : ℝ) + 2 := by ring
    rw [harg, ite_neg_zero_eq_max]
  · have h101 : ((100 : ℤ) : ℝ) - ((1 : ℤ) : ℝ) + 1 + 1 = 101 := by norm_num
    simp only [compute_score, h101]
    have hlog : 0 < Real.logb 2 101 := Real.logb_pos (by norm_num) (by norm_num)
    have hq : (0 : ℝ) ≤ 1000 / Real.logb 2 101 := by positivity
    norm_num [if_neg (not_lt.mpr hq)]

/-! ### Lemmas about digits and decimal strings -/

lemma digitChar_ok (n : ℕ) (h : n < 10) : DigitOk (digitChar n) := by
  interval_cases n <;> simp only [DigitOk] <;> decide

lemma digitVal_digitChar (n : ℕ) (h : n < 10) : digitVal (digitChar n) = n := by
  interval_cases n <;> rfl

lemma natDigits_ne_nil (n : ℕ) : natDigits n ≠ [] := by
  rw [natDigits]
  split_ifs <;> simp

lemma natDigits_ok (n : ℕ) : ∀ c ∈ natDigits n, DigitOk c := by
  induction n using Nat.strong_induction_on with
  | _ n ih =>
    rw [natDigits]
    split_ifs with h
    · intro c hc
      rw [List.mem_singleton] at hc
      subst hc
      exact digitChar_ok n h
    · intro c hc
      rcases List.mem_append.mp hc with h1 | h2
      · exact ih (n / 10) (Nat.div_lt_self (by omega) (by omega)) c h1
      · rw [List.mem_singleton] at h2
        subst h2
        exact digitChar_ok (n % 10) (Nat.mod_lt n (by omega))

lemma digitsToNat_append_digit (xs : Str) (c : Char) :
    digitsToNat (xs ++ [c]) = 10 * digitsToNat xs + digitVal c := by
  simp [digitsToNat, List.foldl_append]

lemma digitsToNat_natDigits (n : ℕ) : digitsToNat (natDigits n) = n := by
  induction n using Nat.strong_induction_on with
  | _ n ih =>
    rw [natDigits]
    split_ifs with h
    · simp [digitsToNat, digitVal_digitChar n h]
    · rw [digitsToNat_append_digit,
        ih (n / 10) (Nat.div_lt_self (by omega) (by omega)),
        digitVal_digitChar (n % 10) (Nat.mod_lt n (by omega))]
      omega

lemma digitsToNat_twoDigits (r : ℕ) (h : r < 100) :
    digitsToNat (twoDigits r) = r := by
  have h1 : r / 10 < 10 := by omega
  have h2 : r % 10 < 10 := by omega
  simp [twoDigits, digitsToNat, digitVal_digitChar _ h1, digitVal_digitChar _ h2]
  omega

lemma takeWhile_all {p : Char → Bool} {l : Str} (h : ∀ c ∈ l, p c = true) :
    l.takeWhile p = l := by
  induction l with
  | nil => rfl
  | cons c cs ih =>
    rw [List.takeWhile_cons, h c (List.mem_cons_self c cs)]
    simp [ih (fun d hd => h d (List.mem_cons_of_mem c hd))]

lemma dropWhile_none {p : Char → Bool} {l : Str} (h : ∀ c ∈ l, p c = false) :
    l.dropWhile p = l := by
  cases l with
  | nil => rfl
  | cons c cs =>
    rw [List.dropWhile_cons, h c (List.mem_cons_self c cs)]
    simp

lemma takeWhile_append_stop {p : Char → Bool} {xs : Str} {y : Char} {ys : Str}
    (hx : ∀ c ∈ xs, p c = true) (hy : p y = false) :
    ((xs ++ y :: ys).takeWhile p) = xs := by
  induction xs with
  | nil => simp [List.takeWhile_cons, hy]
  | cons c cs ih =>
    rw [List.cons_append, List.takeWhile_cons, hx c (List.mem_cons_self c cs)]
    simp [ih (fun d hd => hx d (List.mem_cons_of_mem c hd))]

lemma dropWhile_append_stop {p : Char → Bool} {xs : Str} {y : Char} {ys : Str}
    (hx : ∀ c ∈ xs, p c = true) (hy : p y = false) :
    ((xs ++ y :: ys).dropWhile p) = y :: ys := by
  induction xs with
  | nil => simp [List.dropWhile_cons, hy]
  | cons c cs ih =>
    rw [List.cons_append, List.dropWhile_cons, hx c (List.mem_cons_self c cs)]
    simp [ih (fun d hd => hx d (List.mem_cons_of_mem c hd))]

lemma twoDigits_ok (r : ℕ) (h : r < 100) : ∀ c ∈ twoDigits r, DigitOk c := by
  intro c hc
  rcases List.mem_pair.mp hc with rfl | rfl
  · exact digitChar_ok _ (by omega)
  · exact digitChar_ok _ (by omega)

lemma parseDigits_natDigits (n : ℕ) : parseDigits (natDigits n) = some n := by
  simp only [parseDigits]
  rw [takeWhile_all (fun c hc => (natDigits_ok n c hc).1)]
  rw [if_neg (natDigits_ne_nil n), digitsToNat_natDigits n]

lemma stoi_fn_neg_cons (l : Str) :
    stoi_fn ('-' :: l) = (parseDigits l).map (fun (n : ℕ) => -(n : ℤ)) := rfl

lemma stod_fn_neg_cons (l : Str) :
    stod_fn ('-' :: l) = (parseDecimal l).map (fun q => -q) := rfl

lemma stoi_fn_cons_digit (c : Char) (cs : Str) (h : DigitOk c) :
    stoi_fn (c :: cs) = (parseDigits (c :: cs)).map (fun (n : ℕ) => (n : ℤ)) := by
  unfold stoi_fn
  rw [List.dropWhile_cons, h.2.1]
  simp only [Bool.false_eq_true, if_false]
  rw [if_neg h.2.2.2.2.2.1, if_neg h.2.2.2.2.2.2]

lemma stod_fn_cons_digit (c : Char) (cs : Str) (h : DigitOk c) :
    stod_fn (c :: cs) = (parseDecimal (c :: cs)).map (fun q => q) := by
  unfold stod_fn
  rw [List.dropWhile_cons, h.2.1]
  simp only [Bool.false_eq_true, if_false]
  rw [if_neg h.2.2.2.2.2.1, if_neg h.2.2.2.2.2.2]

lemma stoi_fn_intToChars (k : ℤ) : stoi_fn (intToChars k) = some k := by
  by_cases hk : k < 0
  · simp only [intToChars, if_pos hk]
    rw [stoi_fn_neg_cons, parseDigits_natDigits]
    simp only [Option.map_some']
    congr 1
    omega
  · obtain ⟨c, cs, hcons⟩ :=
      List.exists_cons_of_ne_nil (natDigits_ne_nil k.natAbs)
    have hok : DigitOk c :=
      natDigits_ok _ c (by rw [hcons]; exact List.mem_cons_self c cs)
    simp only [intToChars, if_neg hk]
    rw [hcons, stoi_fn_cons_digit c cs hok, ← hcons, parseDigits_natDigits]
    simp only [Option.map_some']
    congr 1
    omega

lemma parseDecimal_body (m : ℕ) :
    parseDecimal (natDigits (m / 100) ++ '.' :: twoDigits (m % 100))
      = some ((m : ℚ) / 100) := by
  have hdig : ∀ c ∈ natDigits (m / 100), isDigitChar c = true :=
    fun c hc => (natDigits_ok _ c hc).1
  have hdot : isDigitChar '.' = false := by decide
  simp only [parseDecimal]
  rw [takeWhile_append_stop hdig hdot, dropWhile_append_stop hdig hdot]
  simp only
  rw [takeWhile_all (fun c hc => (twoDigits_ok (m % 100) (by omega) c hc).1)]
  rw [if_neg (by simp [natDigits_ne_nil])]
  rw [digitsToNat_natDigits, digitsToNat_twoDigits _ (by omega)]
  congr 1
  have h0 : (100 : ℕ) * (m / 100) + m % 100 = m := Nat.div_add_mod m 100
  have h0q : (100 : ℚ) * ((m / 100 : ℕ) : ℚ) + ((m % 100 : ℕ) : ℚ) = (m : ℚ) := by
    exact_mod_cast congrArg (Nat.cast : ℕ → ℚ) h0
  have hlen : (twoDigits (m % 100)).length = 2 := by simp [twoDigits]
  rw [hlen]
  field_simp
  linarith

lemma stod_fn_formatFixed2 (q : ℚ) :
    stod_fn (formatFixed2 q) = some (round2 q) := by
  set n : ℤ := round (q * 100) with hn
  set m : ℕ := n.natAbs with hm
  set body : Str := natDigits (m / 100) ++ '.' :: twoDigits (m % 100) with hbody
  have hff : formatFixed2 q = if n < 0 then '-' :: body else body := rfl
  have hround2 : round2 q = (n : ℚ) / 100 := by
    simp only [round2, ← hn]
  have hbody_nospace : ∀ c ∈ body, isSpaceChar c = false := by
    intro c hc
    rw [hbody] at hc
    rcases List.mem_append.mp hc with h1 | h2
    · exact (natDigits_ok _ c h1).2.1
    · rcases List.mem_cons.mp h2 with rfl | h3
      · decide
      · exact (twoDigits_ok (m % 100) (by omega) c h3).2.1
  rw [hff]
  by_cases hneg : n < 0
  · rw [if_pos hneg, stod_fn_neg_cons, hbody, parseDecimal_body]
    simp only [Option.map_some']
    rw [hround2]
    congr 1
    have hmn : (m : ℤ) = -n := by omega
    have hq : (m : ℚ) = -(n : ℚ) := by exact_mod_cast congrArg (Int.cast : ℤ → ℚ) hmn
    rw [hq]
    ring
  · obtain ⟨d, ds, hda⟩ :=
      List.exists_cons_of_ne_nil (natDigits_ne_nil (m / 100))
    have hcons : body = d :: (ds ++ '.' :: twoDigits (m % 100)) := by
      rw [hbody, hda]; simp
    have hok : DigitOk d :=
      natDigits_ok _ d (by rw [hda]; exact List.mem_cons_self d ds)
    rw [if_neg hneg, hcons, stod_fn_cons_digit d _ hok, ← hcons, hbody,
      parseDecimal_body]
    simp only [Option.map_some']
    rw [hround2]
    congr 1
    have hmn : (m : ℤ) = n := by omega
    have hq : (m : ℚ) = (n : ℚ) := by exact_mod_cast congrArg (Int.cast : ℤ → ℚ) hmn
    rw [hq]

/-! ### Lemmas about field splitting and the serialized line -/

lemma cppFieldsAux_append (xs : Str) (cur rest : Str) (hx : ',' ∉ xs)
    (hr : rest ≠ []) :
    cppFieldsAux cur (xs ++ ',' :: rest)
      = (cur.reverse ++ xs) :: cppFieldsAux [] rest := by
  induction xs generalizing cur with
  | nil =>
    show cppFieldsAux cur (',' :: rest) = _
    rw [cppFieldsAux]
    rw [if_pos rfl, if_neg (by simpa [List.isEmpty_iff] using hr)]
    simp
  | cons c cs ih =>
    have hc : c ≠ ',' := fun h => hx (h ▸ List.mem_cons_self c cs)
    show cppFieldsAux cur (c :: (cs ++ ',' :: rest)) = _
    rw [cppFieldsAux]
    rw [if_neg hc, ih (c :: cur) (fun h => hx (List.mem_cons_of_mem c h))]
    simp

lemma cppFieldsAux_last (xs : Str) (cur : Str) (hx : ',' ∉ xs) :
    cppFieldsAux cur xs = [cur.reverse ++ xs] := by
  induction xs generalizing cur with
  | nil => simp [cppFieldsAux]
  | cons c cs ih =>
    have hc : c ≠ ',' := fun h => hx (h ▸ List.mem_cons_self c cs)
    rw [cppFieldsAux]
    rw [if_neg hc, ih (c :: cur) (fun h => hx (List.mem_cons_of_mem c h))]
    simp

lemma comma_not_mem_quoteField (s : Str) (hs : ',' ∉ s) :
    ',' ∉ quoteField s := by
  intro h
  rcases List.mem_cons.mp h with h1 | h2
  · exact absurd h1 (by decide)
  · rcases List.mem_append.mp h2 with h3 | h4
    · exact hs h3
    · exact absurd (List.mem_singleton.mp h4) (by decide)

lemma comma_not_mem_intToChars (k : ℤ) : ',' ∉ intToChars k := by
  intro h
  unfold intToChars at h
  have hdig : ',' ∈ natDigits k.natAbs → False := fun hm =>
    absurd rfl (natDigits_ok _ ',' hm).2.2.1
  split_ifs at h with hk
  · rcases List.mem_cons.mp h with h1 | h2
    · exact absurd h1 (by decide)
    · exact hdig h2
  · exact hdig h

lemma comma_not_mem_formatFixed2 (q : ℚ) : ',' ∉ formatFixed2 q := by
  intro h
  simp only [formatFixed2] at h
  have hbody : ',' ∈ natDigits ((round (q * 100)).natAbs / 100)
      ++ '.' :: twoDigits ((round (q * 100)).natAbs % 100) → False := by
    intro hm
    rcases List.mem_append.mp hm with h1 | h2
    · exact absurd rfl (natDigits_ok _ ',' h1).2.2.1
    · rcases List.mem_cons.mp h2 with h3 | h4
      · exact absurd h3 (by decide)
      · exact absurd rfl (twoDigits_ok _ (by omega) ',' h4).2.2.1
  split_ifs at h with hneg
  · rcases List.mem_cons.mp h with h1 | h2
    · exact absurd h1 (by decide)
    · exact hbody h2
  · exact hbody h

lemma quoteField_append_ne_nil (s : Str) (x : Str) : quoteField s ++ x ≠ [] := by
  simp [quoteField]

lemma cppFields_serialize (r : Result) (h1 : ',' ∉ r.timestamp)
    (h2 : ',' ∉ r.playerName) (h3 : ',' ∉ r.difficulty) :
    cppFields (serialize r)
      = [quoteField r.timestamp, quoteField r.playerName,
         quoteField r.difficulty, intToChars r.attempts,
         formatFixed2 r.elapsedSeconds, intToChars r.secretNumber,
         formatFixed2 r.score] := by
  have hne : ∀ k : ℤ, intToChars k ≠ [] := by
    intro k
    unfold intToChars
    split_ifs <;> simp [natDigits_ne_nil]
  have hfmt : ∀ q : ℚ, formatFixed2 q ≠ [] := by
    intro q
    simp only [formatFixed2]
    split_ifs <;> simp [natDigits_ne_nil]
  unfold cppFields serialize
  rw [if_neg (by simp [quoteField, List.isEmpty_iff])]
  rw [cppFieldsAux_append _ _ _ (comma_not_mem_quoteField _ h1)
    (quoteField_append_ne_nil _ _)]
  rw [cppFieldsAux_append _ _ _ (comma_not_mem_quoteField _ h2)
    (quoteField_append_ne_nil _ _)]
  rw [cppFieldsAux_append _ _ _ (comma_not_mem_quoteField _ h3) (by simp)]
  rw [cppFieldsAux_append _ _ _ (comma_not_mem_intToChars _) (by simp)]
  rw [cppFieldsAux_append _ _ _ (comma_not_mem_formatFixed2 _) (by simp)]
  rw [cppFieldsAux_append _ _ _ (comma_not_mem_intToChars _)
    (hfmt r.score)]
  rw [cppFieldsAux_last _ _ (comma_not_mem_formatFixed2 _)]
  simp

lemma stripQuotes_quoteField (s : Str) : stripQuotes (quoteField s) = s := by
  unfold stripQuotes quoteField
  rw [if_pos (by constructor <;> simp)]
  simp

/-- A serialized record parses back to the same record with the two `double`
fields rounded to the two decimals that were printed. -/
lemma parse_line_serialize (r : Result) (h1 : ',' ∉ r.timestamp)
    (h2 : ',' ∉ r.playerName) (h3 : ',' ∉ r.difficulty) :
    parse_line (serialize r)
      = .record { r with
          elapsedSeconds := round2 r.elapsedSeconds
          score := round2 r.score } := by
  unfold parse_line
  rw [cppFields_serialize r h1 h2 h3]
  simp only [stoi_fn_intToChars, stod_fn_formatFixed2, stripQuotes_quoteField]

lemma serialize_ne_nil (r : Result) : serialize r ≠ [] := by
  unfold serialize
  simp [quoteField]

lemma read_lines_of_parse_all (ls : List Str) (limit : ℤ) :
    ∀ (count : ℤ) (rs : List Result), parse_all ls = .ok rs →
      count < limit →
      read_lines limit count ls = .ok (rs.take (limit - count).toNat) := by
  induction ls with
  | nil =>
    intro count rs hok hcnt
    simp only [parse_all] at hok
    obtain rfl : ([] : List Result) = rs := by simpa using hok
    simp [read_lines]
  | cons l ls ih =>
    intro count rs hok hcnt
    simp only [parse_all] at hok
    simp only [read_lines]
    by_cases he : l.isEmpty
    · rw [if_pos he] at hok ⊢
      exact ih count rs hok hcnt
    · rw [if_neg he] at hok ⊢
      cases hp : parse_line l with
      | skip =>
        rw [hp] at hok
        exact ih count rs hok hcnt
      | abort =>
        rw [hp] at hok
        simp at hok
      | record r =>
        rw [hp] at hok
        simp only at hok
        cases hall : parse_all ls with
        | error e => rw [hall] at hok; simp [Except.map] at hok
        | ok rs' =>
          rw [hall] at hok
          obtain rfl : r :: rs' = rs := by
            simpa [Except.map] using hok
          dsimp only
          by_cases hlim : limit ≤ count + 1
          · rw [if_pos hlim]
            have : (limit - count).toNat = 1 := by omega
            rw [this]
            simp
          · rw [if_neg hlim]
            rw [ih (count + 1) rs' hall (by omega)]
            have : (limit - count).toNat = (limit - (count + 1)).toNat + 1 := by
              omega
            simp [Except.map, this]

/-- A line with at most three comma-separated fields never reaches a numeric
conversion: the fourth `getline` fails and the loop body `continue`s. -/
lemma parse_line_skip_of_short (l : Str) (h : (cppFields l).length ≤ 3) :
    parse_line l = .skip := by
  rcases hf : cppFields l with _ | ⟨f1, _ | ⟨f2, _ | ⟨f3, _ | ⟨f4, rest⟩⟩⟩⟩
  · unfold parse_line
    rw [hf]
  · unfold parse_line
    rw [hf]
  · unfold parse_line
    rw [hf]
  · unfold parse_line
    rw [hf]
  · rw [hf] at h
    simp at h

/-- A file all of whose lines are field-short (or empty) is read to the empty
vector without any conversion running. -/
lemma read_lines_all_short (limit count : ℤ) (ls : List Str)
    (h : ∀ l ∈ ls, (cppFields l).length ≤ 3) :
    read_lines limit count ls = .ok [] := by
  induction ls with
  | nil => rfl
  | cons l ls ih =>
    simp only [read_lines]
    by_cases he : l.isEmpty
    · rw [if_pos he]
      exact ih (fun l' hl' => h l' (List.mem_cons_of_mem l hl'))
    · rw [if_neg he,
        parse_line_skip_of_short l (h l (List.mem_cons_self l ls))]
      exact ih (fun l' hl' => h l' (List.mem_cons_of_mem l hl'))

/-- Whatever the loop returns when it completes is bounded by the limit and
is exactly the records of a prefix of the remaining lines, in file order. -/
lemma read_lines_ok_inv (ls : List Str) (limit : ℤ) :
    ∀ (count : ℤ) (rs : List Result),
      read_lines limit count ls = .ok rs → count < limit →
      rs.length ≤ (limit - count).toNat
      ∧ ∃ n, parse_all (ls.take n) = .ok rs := by
  induction ls with
  | nil =>
    intro count rs h hcnt
    obtain rfl : [] = rs := by simpa [read_lines] using h
    exact ⟨by simp, 0, rfl⟩
  | cons l ls ih =>
    intro count rs h hcnt
    simp only [read_lines] at h
    by_cases he : l.isEmpty
    · rw [if_pos he] at h
      obtain ⟨hlen, n, hn⟩ := ih count rs h hcnt
      refine ⟨hlen, n + 1, ?_⟩
      simp only [List.take_succ_cons, parse_all]
      rw [if_pos he]
      exact hn
    · rw [if_neg he] at h
      cases hp : parse_line l with
      | skip =>
        rw [hp] at h
        obtain ⟨hlen, n, hn⟩ := ih count rs h hcnt
        refine ⟨hlen, n + 1, ?_⟩
        simp only [List.take_succ_cons, parse_all]
        rw [if_neg he, hp]
        exact hn
      | abort =>
        rw [hp] at h
        simp at h
      | record r =>
        rw [hp] at h
        dsimp only at h
        by_cases hlim : limit ≤ count + 1
        · rw [if_pos hlim] at h
          obtain rfl : [r] = rs := by simpa using h
          refine ⟨?_, 1, ?_⟩
          · simp only [List.length_singleton]
            omega
          · simp only [List.take_succ_cons, List.take_zero, parse_all]
            rw [if_neg he, hp]
            rfl
        · rw [if_neg hlim] at h
          cases hread : read_lines limit (count + 1) ls with
          | error e =>
            rw [hread] at h
            simp [Except.map] at h
          | ok rs' =>
            rw [hread] at h
            obtain rfl : r :: rs' = rs := by simpa [Except.map] using h
            obtain ⟨hlen, n, hn⟩ := ih (count + 1) rs' hread (by omega)
            refine ⟨?_, n + 1, ?_⟩
            · simp only [List.length_cons]
              omega
            · simp only [List.take_succ_cons, parse_all]
              rw [if_neg he, hp, hn]
              rfl

/-! ### The claims about the leaderboard store -/

/-- Counterexample to C1 as stated: a line with all seven fields present whose
`attempts` field has no digits makes `stoi` throw out of `read_leaderboard`
(nothing catches it), so the read aborts instead of skipping the line. -/
theorem read_leaderboard_abort_cex :
    read_leaderboard 10
        (some [("\x22t\x22,\x22p\x22,\x22d\x22,oops,1.0,5,2.0").data])
      = .error () := by decide

/-- Claim C1 (amended): a missing leaderboard file reads as the empty
collection; a line that lacks the expected fields — in particular any line
with at most three comma-separated fields, which never reaches a numeric
conversion — is skipped without aborting the read; but a line whose numeric
field is present yet fails to convert (no digits, or in the real program a
value out of range) aborts the read via an uncaught exception instead of
being skipped. Whenever the read does complete, it returns at most `limit`
(≥ 1) well-formed records: exactly the records of a prefix of the file, in
file order. -/
theorem read_leaderboard_lenient (limit : ℤ) :
    read_leaderboard limit none = .ok []
    ∧ (∀ ls : List Str, (∀ l ∈ ls, (cppFields l).length ≤ 3) →
        read_leaderboard limit (some ls) = .ok [])
    ∧ (∀ (ls : List Str) (rs : List Result), 1 ≤ limit →
        read_leaderboard limit (some ls) = .ok rs →
        rs.length ≤ limit.toNat ∧ ∃ n, parse_all (ls.take n) = .ok rs) := by
  refine ⟨rfl, ?_, ?_⟩
  · intro ls h
    exact read_lines_all_short limit 0 ls h
  · intro ls rs hlim h
    have hinv := read_lines_ok_inv ls limit 0 rs h (by omega)
    simpa using hinv

/-- Witness for C1 (amended) on concrete files: a file of only field-short
lines reads as empty, and a completed read of a file with one well-formed
line (the serialization of `sampleG`) and one field-short line yields that
single record — a prefix parse in file order, within the limit. -/
theorem read_leaderboard_lenient_witness :
    ((∀ l ∈ [("a,b").data, ("").data], (cppFields l).length ≤ 3)
      ∧ (1 : ℤ) ≤ 10
      ∧ read_leaderboard 10 (some [serialize sampleG, ("a,b").data])
          = .ok [sampleG])
    ∧ (read_leaderboard 10 (some [("a,b").data, ("").data]) = .ok []
      ∧ [sampleG].length ≤ (10 : ℤ).toNat
      ∧ ∃ n, parse_all ([serialize sampleG, ("a,b").data].take n)
          = .ok [sampleG]) := by
  have hr2a : round2 (157/100 : ℚ) = 157/100 := by
    rw [round2]
    norm_num
  have hr2b : round2 (9987/100 : ℚ) = 9987/100 := by
    rw [round2]
    norm_num
  have hpl : parse_line (serialize sampleG) = .record sampleG := by
    rw [parse_line_serialize sampleG (by decide) (by decide) (by decide)]
    congr 1
    simp [sampleG, hr2a, hr2b]
  have hpa : parse_all [serialize sampleG, ("a,b").data] = .ok [sampleG] := by
    simp only [parse_all]
    rw [if_neg (by simpa [List.isEmpty_iff] using serialize_ne_nil sampleG),
      hpl]
    have h2 : parse_all [("a,b").data] = .ok [] := by decide
    simp only [parse_all] at h2
    rw [h2]
    rfl
  have hread : read_leaderboard 10 (some [serialize sampleG, ("a,b").data])
      = .ok [sampleG] := by
    have h := read_lines_of_parse_all [serialize sampleG, ("a,b").data] 10 0
      [sampleG] hpa (by omega)
    show read_lines 10 0 [serialize sampleG, ("a,b").data] = .ok [sampleG]
    simpa using h
  refine ⟨⟨by decide, by decide, hread⟩, ?_, ?_, ?_⟩
  · exact (read_leaderboard_lenient 10).2.1 _ (by decide)
  · exact ((read_leaderboard_lenient 10).2.2 _ _ (by decide) hread).1
  · exact ((read_leaderboard_lenient 10).2.2 _ _ (by decide) hread).2

/-- Counterexample to C8 as stated: on a store that already holds a record,
`append` writes at the end but `read_recent(1)` returns the FIRST line of the
file, so the record that comes back is the old one (`sampleA`), not the
just-appended one (`sampleB`). -/
theorem append_read_roundtrip_cex :
    read_leaderboard 1
        (append_to_leaderboard sampleB (some [serialize sampleA]))
      = .ok [sampleA]
    ∧ read_leaderboard 1
        (append_to_leaderboard sampleB (some [serialize sampleA]))
      ≠ .ok [sampleB] := by
  have hr0 : round2 (0 : ℚ) = 0 := by
    rw [round2]
    norm_num
  have hpl : parse_line (serialize sampleA) = .record sampleA := by
    rw [parse_line_serialize sampleA (by decide) (by decide) (by decide)]
    congr 1
    simp [sampleA, hr0]
  have hread : read_leaderboard 1
      (append_to_leaderboard sampleB (some [serialize sampleA]))
      = .ok [sampleA] := by
    unfold read_leaderboard append_to_leaderboard
    show read_lines 1 0 ([serialize sampleA] ++ [serialize sampleB]) = _
    rw [List.singleton_append, read_lines]
    rw [if_neg (by simpa [List.isEmpty_iff] using serialize_ne_nil sampleA),
      hpl]
    dsimp only
    rw [if_pos (by omega)]
  refine ⟨hread, ?_⟩
  rw [hread]
  decide

/-- Claim C8 (amended): on a missing (or empty) store, `append` followed by
`read_recent(1)` returns exactly the just-appended record's fields — the
string fields verbatim (given they contain no commas or quotes), `attempts`
and `secret` exactly, and the two `double` fields at the two decimal places
that were printed. On a non-empty store `read_recent(1)` returns the file's
first record instead, not the appended one. -/
theorem append_read_roundtrip (r : Result)
    (h1 : ',' ∉ r.timestamp) (h1q : '"' ∉ r.timestamp)
    (h2 : ',' ∉ r.playerName) (h2q : '"' ∉ r.playerName)
    (h3 : ',' ∉ r.difficulty) (h3q : '"' ∉ r.difficulty) :
    read_leaderboard 1 (append_to_leaderboard r none)
      = .ok [{ r with
          elapsedSeconds := round2 r.elapsedSeconds
          score := round2 r.score }] := by
  unfold read_leaderboard append_to_leaderboard
  simp only [Option.getD, List.nil_append]
  show read_lines 1 0 [serialize r] = _
  rw [read_lines]
  rw [if_neg (by simpa [List.isEmpty_iff] using serialize_ne_nil r)]
  rw [parse_line_serialize r h1 h2 h3]
  dsimp only
  rw [if_pos (by omega)]

/-- Witness for C8 (amended) at a concrete record. -/
theorem append_read_roundtrip_witness :
    ((',' ∉ ("t").data ∧ '"' ∉ ("t").data)
      ∧ (',' ∉ ("p").data ∧ '"' ∉ ("p").data)
      ∧ (',' ∉ ("d").data ∧ '"' ∉ ("d").data))
    ∧ read_leaderboard 1 (append_to_leaderboard
        ⟨"p".data, "d".data, 3, 157/100, 42, 9987/100, "t".data⟩ none)
      = .ok [⟨"p".data, "d".data, 3, round2 (157/100), 42,
          round2 (9987/100), "t".data⟩] :=
  ⟨⟨⟨by decide, by decide⟩, ⟨by decide, by decide⟩, ⟨by decide, by decide⟩⟩,
    append_read_roundtrip
      ⟨"p".data, "d".data, 3, 157/100, 42, 9987/100, "t".data⟩
      (by decide) (by decide) (by decide) (by decide) (by decide) (by decide)⟩

/-! ### The claim about the player name and the append policy -/

/-- Counterexample to C7 as stated: the non-blank player name "Anonymous"
(typed literally) is NOT appended — the write is guarded by
`name != "Anonymous"`, not by the name being blank. -/
theorem anonymous_name_not_appended_cex :
    ((finalize ⟨"Easy".data, 1, 20, 0⟩ 3 5 0 0 ("t").data
        ("Anonymous").data (some [])).2 = some [])
    ∧ (("Anonymous").data : Str) ≠ [] := by
  constructor
  · decide
  · decide

/-- Claim C7 (amended): a blank player name is recorded in the Result as
"Anonymous" and that Result is NOT appended to the leaderboard store; every
non-blank name other than the literal "Anonymous" is recorded as entered and
IS appended. (A player who types "Anonymous" literally is treated like a
blank name: recorded, but not appended.) -/
theorem player_name_append_policy (cfg : GameConfig) (attempts secret : ℤ)
    (elapsed score : ℚ) (ts : Str) (file : Option (List Str)) :
    ((finalize cfg attempts secret elapsed score ts [] file).1.playerName
        = ("Anonymous").data
      ∧ (finalize cfg attempts secret elapsed score ts [] file).2 = file)
    ∧ ∀ name : Str, name ≠ [] → name ≠ ("Anonymous").data →
        (finalize cfg attempts secret elapsed score ts name file).1.playerName
            = name
        ∧ (finalize cfg attempts secret elapsed score ts name file).2
            = append_to_leaderboard
                (finalize cfg attempts secret elapsed score ts name file).1
                file := by
  constructor
  · constructor <;> simp [finalize]
  · intro name hne hna
    constructor <;> simp [finalize, hne, hna]

/-- Witness for C7 (amended) at the concrete non-blank name "Bo". -/
theorem player_name_append_policy_witness :
    (("Bo").data ≠ ([] : Str) ∧ ("Bo").data ≠ ("Anonymous").data)
    ∧ ((finalize ⟨"Easy".data, 1, 20, 0⟩ 3 5 0 0 ("t").data ("Bo").data
          none).1.playerName = ("Bo").data
      ∧ (finalize ⟨"Easy".data, 1, 20, 0⟩ 3 5 0 0 ("t").data ("Bo").data
          none).2
          = append_to_leaderboard
              (finalize ⟨"Easy".data, 1, 20, 0⟩ 3 5 0 0 ("t").data
                ("Bo").data none).1 none) :=
  ⟨⟨by decide, by decide⟩,
    (player_name_append_policy ⟨"Easy".data, 1, 20, 0⟩ 3 5 0 0 ("t").data
      none).2 ("Bo").data (by decide) (by decide)⟩

end NumberGuessing
